import Mathlib

/-!
Verification of the habit-performance analytics of the HabitTracker
repository (`DBManager.py`, `Analyze.py`).

Modelling conventions.

Dates handled by `DBManager.py` are modelled as integers counting days,
exactly like Python's proleptic-Gregorian ordinals (`date.toordinal`):
ordinal 1 is a Monday (`date(1,1,1).weekday() == 0`), consecutive dates
differ by 1, and `(d2 - d1).days = d2 - d1`.  Hence
`date.weekday() = (ordinal - 1) % 7` and the Monday of the ISO week of a
date is `ordinal - weekday`.  An ISO `(year, week)` pair is represented
by the ordinal of its Monday; comparing `(year, week)` pairs
lexicographically (as Python compares tuples) orders weeks exactly like
their Mondays, so `period >= habit_creation_week` becomes a comparison
of Mondays.

A stored `checkoff_date` string is modelled by the result of
`date.fromisoformat(s.split("T")[0])`: `some d` when the parse succeeds
and `none` when it raises `ValueError`.  The SQLite queries
`ORDER BY checkoff_date` / `ORDER BY checkoff_date DESC` return the rows
in ascending respectively descending string order; since rows carrying
equal strings parse identically, the descending list is modelled as the
reverse of the ascending one.  SQL comparisons (`>=`, `BETWEEN`) on
ISO-formatted text columns coincide with date order and are modelled on
the parsed dates.

Python `//` is floor division, modelled by `Int.fdiv`; Python `%` on a
positive modulus agrees with `Int.emod`.  Python floats produced by the
performance computations are modelled exactly by `ℚ`.

Functions that `raise` are modelled in `Except String`, the error string
being the message of the raised `ValueError`.
-/

/-- `date.weekday()` of an ordinal: `(ordinal - 1) % 7`, `0` = Monday. -/
def weekdayOf (d : ℤ) : ℤ := (d - 1) % 7

/-- `today - timedelta(days=today.weekday())`: the Monday of the ISO week
containing `d`. -/
def mondayOf (d : ℤ) : ℤ := d - weekdayOf d

/-- `DBManager.get_recurrence` result mapped to the step increment chosen by
the streak routines: `timedelta(days=1)` for `"Daily"`, `timedelta(weeks=1)`
for `"Weekly"`, and `none` for any other value (the `else: raise ValueError`
branch). -/
def incOf (recurrence : String) : Option ℤ :=
  if recurrence = "Daily" then some 1
  else if recurrence = "Weekly" then some 7
  else none

/-- The scan loop of `DBManager.get_current_streak`: walk the check-off rows
in descending order; a row that fails to parse is skipped (`continue`); a
parsed date equal to `current_date` increments the streak and moves
`current_date` back by the increment; any other parsed date stops the scan
(`break`). -/
def currentGo (current : ℤ) (increment : ℤ) : List (Option ℤ) → ℕ
  | [] => 0
  | none :: rest => currentGo current increment rest
  | some d :: rest =>
      if d = current then currentGo (current - increment) increment rest + 1
      else 0

/-- `DBManager.get_current_streak`: the recurrence is resolved to an
increment before the scan (raising `ValueError` for an unsupported value),
then the descending check-off list is walked from `date.today()`. -/
def get_current_streak (recurrence : String) (today : ℤ)
    (checkoffsDesc : List (Option ℤ)) : Except String ℕ :=
  match incOf recurrence with
  | none => .error "Unsupported recurrence type"
  | some increment => .ok (currentGo today increment checkoffsDesc)

/-- The scan loop of `DBManager.get_longest_streak`: walk the check-off rows
in ascending order carrying `(longest_streak, streak, previous_date)`.  A row
that fails to parse is skipped before the recurrence is examined; on the
first parsed row of an unsupported recurrence the loop raises `ValueError`.
A parsed date extends the streak when `previous_date` is `None` or the date
equals `previous_date + increment`, and otherwise folds the streak into
`longest_streak` and restarts at 1. -/
def longestGo (recurrence : String) (longest streak : ℕ) (previous : Option ℤ) :
    List (Option ℤ) → Except String ℕ
  | [] => .ok (max longest streak)
  | none :: rest => longestGo recurrence longest streak previous rest
  | some d :: rest =>
      match incOf recurrence with
      | none => .error "Unsupported recurrence type"
      | some increment =>
          match previous with
          | none => longestGo recurrence longest (streak + 1) (some d) rest
          | some p =>
              if d = p + increment then
                longestGo recurrence longest (streak + 1) (some d) rest
              else
                longestGo recurrence (max longest streak) 1 (some d) rest

/-- `DBManager.get_longest_streak`: scan the ascending check-off list with
`longest_streak = 0`, `streak = 0`, `previous_date = None`, and finish with
`max(longest_streak, streak)`. -/
def get_longest_streak (recurrence : String)
    (checkoffsAsc : List (Option ℤ)) : Except String ℕ :=
  longestGo recurrence 0 0 none checkoffsAsc

/-- `DBManager.get_habit_performance`: count the check-off rows, derive the
number of elapsed periods from the recurrence (raising `ValueError` for an
unsupported value), and return `count / total * 100`, or `0` when
`total <= 0`. -/
def get_habit_performance (recurrence : String) (checkedOffCount : ℕ)
    (creationDate today : ℤ) : Except String ℚ :=
  match recurrence with
  | "Daily" =>
      let total : ℤ := (today - creationDate) + 1
      .ok (if 0 < total then (checkedOffCount : ℚ) / (total : ℚ) * 100 else 0)
  | "Weekly" =>
      let total : ℤ := (today - creationDate).fdiv 7 + 1
      .ok (if 0 < total then (checkedOffCount : ℚ) / (total : ℚ) * 100 else 0)
  | _ => .error "Unsupported recurrence type"

/-- `DBManager.is_habit_checked_off_this_week`: true when some stored
check-off date is `>=` the Monday of the week containing today; the query
has no upper bound. -/
def is_habit_checked_off_this_week (today : ℤ) (checkoffs : List ℤ) : Bool :=
  checkoffs.any (fun d => mondayOf today ≤ d)

/-- `DBManager.is_habit_checked_off_weekly`: true when some stored check-off
date lies `BETWEEN` the Monday and the Sunday of the given ISO week (the
week being represented by the ordinal of its Monday,
`datetime.fromisocalendar(year, week, 1)`). -/
def is_habit_checked_off_weekly (weekMonday : ℤ) (checkoffs : List ℤ) : Bool :=
  checkoffs.any (fun d => weekMonday ≤ d ∧ d ≤ weekMonday + 6)

/-- `DBManager.is_habit_checked_off_given_day`: equality test against the
given day. -/
def is_habit_checked_off_given_day (givenDay : ℤ) (checkoffs : List ℤ) : Bool :=
  checkoffs.any (fun d => d = givenDay)

/-- The rank classification of `Analyze.view_habits_summary`: the first entry
of `rank_mapping`, in its insertion order, whose half-open interval
`[lo, hi)` contains the performance percentage; `"Unknown"` when no interval
does (the default of the `next(...)` call). -/
def habit_rank (performance : ℚ) : String :=
  if 100 ≤ performance ∧ performance < 101 then "Outstanding"
  else if 91 ≤ performance ∧ performance < 100 then "Excellent"
  else if 71 ≤ performance ∧ performance < 91 then "Very Good"
  else if 61 ≤ performance ∧ performance < 71 then "Good"
  else if 51 ≤ performance ∧ performance < 61 then "Inconsistent"
  else if 0 ≤ performance ∧ performance < 51 then "Poor"
  else "Unknown"

/-- One row of the `habit` table as consumed by
`Analyze.view_checkoff_recent_activity`: its recurrence, status, creation
date (ordinal of `get_creation_date`) and parsed check-off dates. -/
structure HabitRow where
  recurrence : String
  status : String
  creation : ℤ
  checkoffs : List ℤ

/-- `DBManager.fetch_all_active_habits`: the rows with `status = 'active'`. -/
def fetch_all_active_habits (habits : List HabitRow) : List HabitRow :=
  habits.filter (fun h => h.status = "active")

/-- The `filtered_habits` list of `view_checkoff_recent_activity`: active
habits whose recurrence matches the selected type. -/
def filtered_habits (recurrenceType : String) (habits : List HabitRow) :
    List HabitRow :=
  (fetch_all_active_habits habits).filter (fun h => h.recurrence = recurrenceType)

/-- The Daily `tracked_period` of `view_checkoff_recent_activity`:
`[today - timedelta(days=i) for i in range(13, -1, -1)]`. -/
def tracked_period_daily (today : ℤ) : List ℤ :=
  (List.range 14).reverse.map (fun i => today - (i : ℤ))

/-- The Weekly `tracked_period` of `view_checkoff_recent_activity`:
`[(today - timedelta(weeks=i)).isocalendar()[:2] for i in range(7, -1, -1)]`,
each ISO week represented by the ordinal of its Monday. -/
def tracked_period_weekly (today : ℤ) : List ℤ :=
  (List.range 8).reverse.map (fun i => mondayOf (today - 7 * (i : ℤ)))

/-- The `checked_off` list built by `view_checkoff_recent_activity` for a
Daily period: habits whose creation date is on or before the period
(`period >= habit_creation_date`) and that are checked off on that day. -/
def checked_off_daily (habits : List HabitRow) (period : ℤ) : List HabitRow :=
  habits.filter (fun h =>
    h.creation ≤ period ∧ is_habit_checked_off_given_day period h.checkoffs)

/-- The `not_checked_off` list for a Daily period: creation on or before the
period, not checked off on that day. -/
def not_checked_off_daily (habits : List HabitRow) (period : ℤ) : List HabitRow :=
  habits.filter (fun h =>
    h.creation ≤ period ∧ ¬ is_habit_checked_off_given_day period h.checkoffs)

/-- The `checked_off` list for a Weekly period (represented by its Monday):
habits whose creation week is on or before the period
(`period >= habit_creation_week`, the lexicographic `(year, week)`
comparison being the comparison of Mondays) and that are checked off during
that week. -/
def checked_off_weekly (habits : List HabitRow) (period : ℤ) : List HabitRow :=
  habits.filter (fun h =>
    mondayOf h.creation ≤ period ∧ is_habit_checked_off_weekly period h.checkoffs)

/-- The `not_checked_off` list for a Weekly period. -/
def not_checked_off_weekly (habits : List HabitRow) (period : ℤ) : List HabitRow :=
  habits.filter (fun h =>
    mondayOf h.creation ≤ period ∧ ¬ is_habit_checked_off_weekly period h.checkoffs)

/-! ### Calendar dates for the monthly performance chart

`Analyze.view_habit_monthly_performance` manipulates `datetime.date`
values through `replace(day=1)`, `+ timedelta(days=32)`, `min`/`max`, `<=`
and the month key `strftime("%Y-%m")`.  A `datetime.date` is modelled by
its `(year, month, day)` triple; Python compares dates chronologically,
which for valid triples is the lexicographic order on `(year, month, day)`.
The `"%Y-%m"` string keys of the summary dictionary compare (as Python
sorts them) exactly like the integer month index `12 * year + (month - 1)`,
which therefore stands in for them. -/

/-- A `datetime.date` as its `(year, month, day)` triple. -/
structure CalDate where
  year : ℤ
  month : ℤ
  day : ℤ
deriving DecidableEq

/-- The proleptic-Gregorian leap-year rule used by `datetime.date`. -/
def isLeap (y : ℤ) : Bool :=
  (y % 4 == 0 && y % 100 != 0) || y % 400 == 0

/-- Number of days of month `m` of year `y` in the proleptic Gregorian
calendar of `datetime.date`. -/
def daysInMonth (y m : ℤ) : ℤ :=
  if m = 2 then (if isLeap y then 29 else 28)
  else if m = 4 ∨ m = 6 ∨ m = 9 ∨ m = 11 then 30
  else 31

/-- The day after a calendar date. -/
def nextDay (d : CalDate) : CalDate :=
  if d.day < daysInMonth d.year d.month then ⟨d.year, d.month, d.day + 1⟩
  else if d.month < 12 then ⟨d.year, d.month + 1, 1⟩
  else ⟨d.year + 1, 1, 1⟩

/-- `d + timedelta(days=n)`. -/
def addDays (d : CalDate) : ℕ → CalDate
  | 0 => d
  | n + 1 => addDays (nextDay d) n

/-- Python's chronological order on `datetime.date`: lexicographic on the
`(year, month, day)` triple. -/
def dateLe (a b : CalDate) : Prop :=
  a.year < b.year ∨ (a.year = b.year ∧
    (a.month < b.month ∨ (a.month = b.month ∧ a.day ≤ b.day)))

instance (a b : CalDate) : Decidable (dateLe a b) := by
  unfold dateLe; infer_instance

/-- A triple that denotes a real `datetime.date`. -/
def ValidDate (d : CalDate) : Prop :=
  1 ≤ d.month ∧ d.month ≤ 12 ∧ 1 ≤ d.day ∧ d.day ≤ daysInMonth d.year d.month

instance (d : CalDate) : Decidable (ValidDate d) := by
  unfold ValidDate; infer_instance

/-- Python's `min` over a non-empty list of dates, given as head and tail. -/
def listMinDate (x : CalDate) (xs : List CalDate) : CalDate :=
  xs.foldl (fun a b => if dateLe a b then a else b) x

/-- Python's `max` over a non-empty list of dates, given as head and tail. -/
def listMaxDate (x : CalDate) (xs : List CalDate) : CalDate :=
  xs.foldl (fun a b => if dateLe a b then b else a) x

/-- The integer month index standing in for the `strftime("%Y-%m")` key:
`"YYYY-MM"` strings sort exactly like `12 * year + (month - 1)`. -/
def monthIdx (d : CalDate) : ℤ := 12 * d.year + (d.month - 1)

/-- `current.replace(day=1)`. -/
def setDay1 (d : CalDate) : CalDate := ⟨d.year, d.month, 1⟩

/-- One iteration step of the gap-filling loop of
`view_habit_monthly_performance`:
`current += timedelta(days=32); current = current.replace(day=1)`. -/
def stepMonth (d : CalDate) : CalDate := setDay1 (addDays d 32)

/-- The gap-filling `while current <= end_date` loop, with explicit fuel
(each iteration advances `current` by one month, so the fuel computed by
`monthFuel` lets the loop run to its real exit condition). -/
def fillMonths (fuel : ℕ) (current endDate : CalDate) : List ℤ :=
  match fuel with
  | 0 => []
  | fuel + 1 =>
      if dateLe current endDate then
        monthIdx current :: fillMonths fuel (stepMonth current) endDate
      else []

/-- Fuel bound for `fillMonths`: one unit per month between `current` and
`end_date`. -/
def monthFuel (current endDate : CalDate) : ℕ :=
  (monthIdx endDate - monthIdx current + 1).toNat

/-- The month-keyed summary of `view_habit_monthly_performance` as the
sorted association list `(month key, count)`:

* `month_summary` first receives one increment per check-off under its
  `"%Y-%m"` key, then the filling loop runs `setdefault(key, 0)` from
  `min(fixed_checkoff_dates).replace(day=1)` up to
  `max(fixed_checkoff_dates + [date.today()])`; its key set is therefore
  the check-off keys together with the filled range, and the count of a
  key is the number of check-offs carrying it;
* `sorted_months = sorted(month_summary.keys())` sorts the keys
  ascending.

An empty check-off list makes the function return before any of this. -/
def monthlySeries (checkoffs : List CalDate) (today : CalDate) :
    List (ℤ × ℕ) :=
  match checkoffs with
  | [] => []
  | c :: cs =>
      let startDate := listMinDate c cs
      let endDate := listMaxDate c (cs ++ [today])
      let first := setDay1 startDate
      let keys :=
        ((c :: cs).map monthIdx ++
          fillMonths (monthFuel first endDate) first endDate).dedup
      let sortedMonths := keys.insertionSort (· ≤ ·)
      sortedMonths.map
        (fun k => (k, (c :: cs).countP (fun d => monthIdx d = k)))

/-- The `performances` list of `view_habit_monthly_performance`:
`count / 31 * 100` when the recurrence is `"Daily"`, else
`count / 5 * 100`, one entry per sorted month. -/
def monthlyPerformances (recurrence : String) (checkoffs : List CalDate)
    (today : CalDate) : List ℚ :=
  (monthlySeries checkoffs today).map
    (fun e => if recurrence = "Daily" then (e.2 : ℚ) / 31 * 100
              else (e.2 : ℚ) / 5 * 100)

/-- Modelled from the spec (the claim side of the monthly-performance
refinement, not present in the code): for a Daily habit the expected period
count of month `(y, m)` is the number of calendar days of that month,
clamped to the day of month so far when `(y, m)` is the current month. -/
def specExpectedPeriodsDaily (y m : ℤ) (today : CalDate) : ℤ :=
  if y = today.year ∧ m = today.month then today.day else daysInMonth y m

/-- Modelled from the spec: the monthly percentage the claim asserts for a
Daily habit, `count / expected_periods * 100`. -/
def specMonthlyPercentageDaily (count : ℕ) (y m : ℤ) (today : CalDate) : ℚ :=
  (count : ℚ) / (specExpectedPeriodsDaily y m today : ℚ) * 100

/-! ### Proof-side helpers -/

/-- One transition of the `get_longest_streak` scan, recurrence already
resolved, on the state `(longest_streak, streak, previous_date)`. -/
def stepL (inc : ℤ) (s : ℕ × ℕ × Option ℤ) (x : Option ℤ) : ℕ × ℕ × Option ℤ :=
  match x with
  | none => s
  | some d =>
      match s.2.2 with
      | none => (s.1, s.2.1 + 1, some d)
      | some p =>
          if d = p + inc then (s.1, s.2.1 + 1, some d)
          else (max s.1 s.2.1, 1, some d)

/-- The `get_longest_streak` scan as a fold over `stepL`, finished with
`max(longest_streak, streak)`. -/
def longestOf (inc : ℤ) (s : ℕ × ℕ × Option ℤ) (l : List (Option ℤ)) : ℕ :=
  let t := l.foldl (stepL inc) s
  max t.1 t.2.1

/-- `n` consecutive integers starting at `lo`. -/
def monthRangeGo : ℕ → ℤ → List ℤ
  | 0, _ => []
  | n + 1, lo => lo :: monthRangeGo n (lo + 1)

/-- The consecutive month indices from `lo` to `hi` inclusive. -/
def monthRange (lo hi : ℤ) : List ℤ := monthRangeGo (hi - lo + 1).toNat lo

/-! ## Theorems -/

section Lemmas

/-- Helper: when no parseable check-off equals `today`, the current-streak
scan stops at 0. -/
theorem currentGo_eq_zero (today inc : ℤ) :
    ∀ l : List (Option ℤ), (∀ d, some d ∈ l → d ≠ today) →
      currentGo today inc l = 0 := by
  intro l
  induction l with
  | nil => intro _; rfl
  | cons x rest ih =>
      intro h
      match x with
      | none =>
          simpa [currentGo] using ih (fun d hd => h d (by simp [hd]))
      | some d =>
          have hd : d ≠ today := h d (by simp)
          simp [currentGo, hd]

/-- Helper: with an unsupported recurrence, the longest-streak scan raises
at the first parseable entry and returns `max longest streak` when there is
none. -/
theorem longestGo_unsupported (rec : String) (hrec : incOf rec = none) :
    ∀ (l : List (Option ℤ)) (a b : ℕ) (p : Option ℤ),
      ((∃ d, some d ∈ l) →
        longestGo rec a b p l = .error "Unsupported recurrence type")
      ∧ ((∀ d, some d ∉ l) → longestGo rec a b p l = .ok (max a b)) := by
  intro l
  induction l with
  | nil =>
      intro a b p
      exact ⟨fun ⟨d, hd⟩ => absurd hd (by simp), fun _ => rfl⟩
  | cons x rest ih =>
      intro a b p
      match x with
      | none =>
          refine ⟨fun ⟨d, hd⟩ => ?_, fun h => ?_⟩
          · have : some d ∈ rest := by simpa using hd
            simpa [longestGo] using (ih a b p).1 ⟨d, this⟩
          · have : ∀ d, some d ∉ rest := fun d hd => h d (by simp [hd])
            simpa [longestGo] using (ih a b p).2 this
      | some d =>
          refine ⟨fun _ => ?_, fun h => absurd (h d) (by simp)⟩
          simp [longestGo, hrec]

end Lemmas

/-- C9: in `get_longest_streak` for a Daily habit, a duplicate check-off
date in the ascending scan resets the running streak to 1 instead of being
ignored: the history `d, d+1, d+1, d+2` yields a longest streak of 2, while
the deduplicated history `d, d+1, d+2` yields 3. -/
theorem c9_longest_streak_duplicate_resets (d : ℤ) :
    get_longest_streak "Daily" [some d, some (d + 1), some (d + 1), some (d + 2)]
      = .ok 2
    ∧ get_longest_streak "Daily" [some d, some (d + 1), some (d + 2)] = .ok 3 := by
  have h1 : d + 1 ≠ d + 1 + 1 := by omega
  have h2 : d + 2 = d + 1 + 1 := by omega
  constructor <;>
    simp [get_longest_streak, longestGo, incOf, h1, h2]

/-- C10: `is_habit_checked_off_this_week` is true exactly when some stored
check-off date is on or after the Monday of the week containing today, with
no upper bound, while `is_habit_checked_off_weekly` bounds the query between
the Monday and the Sunday of the given week; hence a check-off dated in any
future week satisfies the former but not the current week's instance of the
latter. -/
theorem c10_this_week_unbounded (today : ℤ) (checkoffs : List ℤ) :
    (is_habit_checked_off_this_week today checkoffs = true
      ↔ ∃ d ∈ checkoffs, mondayOf today ≤ d)
    ∧ (∀ weekMonday,
        is_habit_checked_off_weekly weekMonday checkoffs = true
          ↔ ∃ d ∈ checkoffs, weekMonday ≤ d ∧ d ≤ weekMonday + 6)
    ∧ (∀ d, mondayOf today + 7 ≤ d →
        is_habit_checked_off_this_week today [d] = true
        ∧ is_habit_checked_off_weekly (mondayOf today) [d] = false) := by
  refine ⟨?_, ?_, ?_⟩
  · simp [is_habit_checked_off_this_week, List.any_eq_true]
  · intro weekMonday
    simp [is_habit_checked_off_weekly, List.any_eq_true]
  · intro d hd
    constructor
    · simp [is_habit_checked_off_this_week]
      omega
    · simp [is_habit_checked_off_weekly]
      omega

/-- C10 witness: a check-off 13 days after this week's Monday counts as
"checked off this week" but not as checked off during this week's period. -/
theorem c10_witness :
    is_habit_checked_off_this_week 2 [14] = true
    ∧ is_habit_checked_off_weekly (mondayOf 2) [14] = false :=
  (c10_this_week_unbounded 2 [14]).2.2 14 (by norm_num [mondayOf, weekdayOf])

/-- C5 counterexample: `"Monthly"` is an unsupported recurrence, yet
`get_longest_streak` on an empty check-off history returns the number 0
instead of raising — the recurrence test sits inside the scan loop, so it
is never reached when there is no parseable entry. -/
theorem c5_counterexample :
    incOf "Monthly" = none ∧ get_longest_streak "Monthly" [] = .ok 0 :=
  ⟨rfl, rfl⟩

/-- C5 (amended): for an unsupported recurrence, `get_current_streak`
raises before scanning (even on an empty history), while
`get_longest_streak` raises exactly when the history contains at least one
parseable entry and returns 0 otherwise. -/
theorem c5_unsupported_recurrence (rec : String) (today : ℤ)
    (l : List (Option ℤ)) (hrec : incOf rec = none) :
    get_current_streak rec today l = .error "Unsupported recurrence type"
    ∧ ((∃ d, some d ∈ l) →
        get_longest_streak rec l = .error "Unsupported recurrence type")
    ∧ ((∀ d, some d ∉ l) → get_longest_streak rec l = .ok 0) := by
  refine ⟨?_, ?_, ?_⟩
  · simp [get_current_streak, hrec]
  · exact fun h => (longestGo_unsupported rec hrec l 0 0 none).1 h
  · exact fun h => (longestGo_unsupported rec hrec l 0 0 none).2 h

/-- C5 witness: the amended statement at recurrence `"Monthly"` with a
history consisting of one unparseable row. -/
theorem c5_witness :
    get_current_streak "Monthly" 5 [none] = .error "Unsupported recurrence type" :=
  (c5_unsupported_recurrence "Monthly" 5 [none] rfl).1

/-- C1 counterexample: a Weekly habit evaluated on a Tuesday (ordinal 2)
with a single check-off on the Monday of the same ISO week (ordinal 1).
The check-off lies inside the ISO week containing today, so by the claim
the current period is covered and the streak should be 1, but
`get_current_streak` compares parsed dates with `current_date = today`
for equality and returns 0. -/
theorem c1_counterexample :
    get_current_streak "Weekly" 2 [some 1] = .ok 0
    ∧ mondayOf 2 ≤ 1 ∧ (1 : ℤ) ≤ mondayOf 2 + 6 := by
  refine ⟨rfl, ?_, ?_⟩ <;> norm_num [mondayOf, weekdayOf]

/-- C1 (amended): for a Daily or Weekly habit, the current-streak scan
walks backward from today in steps of the increment (1 day, or 7 days)
and counts a period only when some check-off parses to exactly the date
`today - k * increment` — for a Weekly habit a check-off on another day of
the ISO week containing today does not count; in particular the descending
history `today, today - increment, today - 2 * increment` yields 3, and
the streak is 0 whenever no check-off is dated exactly `today`. -/
theorem c1_current_streak (rec : String) (inc today : ℤ)
    (l : List (Option ℤ)) (hrec : incOf rec = some inc)
    (hl : ∀ d, some d ∈ l → d ≠ today) :
    get_current_streak rec today
        [some today, some (today - inc), some (today - 2 * inc)] = .ok 3
    ∧ get_current_streak rec today l = .ok 0 := by
  constructor
  · have h2 : today - 2 * inc = today - inc - inc := by ring
    simp [get_current_streak, hrec, currentGo, h2]
  · simp [get_current_streak, hrec, currentGo_eq_zero today inc l hl]

/-- C1 witness: the amended statement for a Daily habit at `today = 10`
with a mismatching history `[some 5, none]`. -/
theorem c1_witness :
    get_current_streak "Daily" 10 [some 10, some 9, some 8] = .ok 3
    ∧ get_current_streak "Daily" 10 [some 5, none] = .ok 0 := by
  have h := c1_current_streak "Daily" 1 10 [some 5, none] rfl
    (by intro d hd; simp at hd; omega)
  simpa using h

/-- C4: for a Daily or Weekly habit, `get_habit_performance` returns
`checkoff_count / total_periods * 100` with
`total_periods = (today - creation).days + 1` for Daily and
`(today - creation).days // 7 + 1` for Weekly; it returns 0 instead of
dividing whenever `total_periods <= 0`, and under
`0 <= checkoff_count <= total_periods` the result lies in `[0, 100]`. -/
theorem c4_lifetime_performance (rec : String) (count : ℕ)
    (creation today : ℤ) (hrec : rec = "Daily" ∨ rec = "Weekly") :
    ∃ total : ℤ,
      total = (if rec = "Daily" then today - creation + 1
               else (today - creation).fdiv 7 + 1)
      ∧ get_habit_performance rec count creation today
          = .ok (if 0 < total then (count : ℚ) / (total : ℚ) * 100 else 0)
      ∧ (total ≤ 0 → get_habit_performance rec count creation today = .ok 0)
      ∧ ((count : ℤ) ≤ total →
          ∃ q : ℚ, get_habit_performance rec count creation today = .ok q
            ∧ 0 ≤ q ∧ q ≤ 100) := by
  have main : ∀ total : ℤ,
      ((if 0 < total then (count : ℚ) / (total : ℚ) * 100 else 0) = 0
        ∨ 0 < total)
      ∧ ((count : ℤ) ≤ total →
          0 ≤ (if 0 < total then (count : ℚ) / (total : ℚ) * 100 else 0)
          ∧ (if 0 < total then (count : ℚ) / (total : ℚ) * 100 else 0) ≤ 100) := by
    intro total
    by_cases hpos : 0 < total
    · refine ⟨Or.inr hpos, fun hle => ?_⟩
      have htQ : (0 : ℚ) < (total : ℚ) := by exact_mod_cast hpos
      have hcQ : (count : ℚ) ≤ (total : ℚ) := by exact_mod_cast hle
      have h0 : (0 : ℚ) ≤ (count : ℚ) := by positivity
      have hdiv : (count : ℚ) / (total : ℚ) ≤ 1 := (div_le_one htQ).2 hcQ
      have hdiv0 : (0 : ℚ) ≤ (count : ℚ) / (total : ℚ) := by positivity
      constructor
      · simp only [if_pos hpos]; positivity
      · simp only [if_pos hpos]
        calc (count : ℚ) / (total : ℚ) * 100 ≤ 1 * 100 := by
              exact mul_le_mul_of_nonneg_right hdiv (by norm_num)
          _ = 100 := by norm_num
    · exact ⟨Or.inl (if_neg hpos), fun _ => by simp [if_neg hpos]⟩
  rcases hrec with h | h <;> subst h
  · refine ⟨today - creation + 1, by simp, by simp [get_habit_performance], ?_, ?_⟩
    · intro hle
      simp [get_habit_performance, if_neg (by omega : ¬ 0 < today - creation + 1)]
    · intro hle
      exact ⟨_, by simp [get_habit_performance], (main (today - creation + 1)).2 hle⟩
  · refine ⟨(today - creation).fdiv 7 + 1, by simp, by simp [get_habit_performance], ?_, ?_⟩
    · intro hle
      simp [get_habit_performance,
        if_neg (by omega : ¬ 0 < (today - creation).fdiv 7 + 1)]
    · intro hle
      exact ⟨_, by simp [get_habit_performance],
        (main ((today - creation).fdiv 7 + 1)).2 hle⟩

/-- C4 witness: the spec's scenario — Daily habit created 10 days before
today with 10 check-offs: 11 total periods and performance 1000/11. -/
theorem c4_witness :
    ∃ total : ℤ,
      total = (if "Daily" = "Daily" then (10 : ℤ) - 0 + 1
               else ((10 : ℤ) - 0).fdiv 7 + 1)
      ∧ get_habit_performance "Daily" 10 0 10
          = .ok (if 0 < total then ((10 : ℕ) : ℚ) / (total : ℚ) * 100 else 0)
      ∧ (total ≤ 0 → get_habit_performance "Daily" 10 0 10 = .ok 0)
      ∧ (((10 : ℕ) : ℤ) ≤ total →
          ∃ q : ℚ, get_habit_performance "Daily" 10 0 10 = .ok q
            ∧ 0 ≤ q ∧ q ≤ 100) :=
  c4_lifetime_performance "Daily" 10 0 10 (Or.inl rfl)

/-- C2 counterexample: the code's `rank_mapping` uses the boundaries
71/61/51, not 70/60/40 — at percentage 70 the classifier returns `"Good"`
(interval `[61, 71)`), where the claim's table `[70, 91) -> Very Good`
demands `"Very Good"`; likewise 40 classifies as `"Poor"`, not
`"Inconsistent"`. -/
theorem c2_counterexample :
    habit_rank 70 = "Good" ∧ habit_rank 40 = "Poor"
    ∧ ("Good" ≠ "Very Good") ∧ ("Poor" ≠ "Inconsistent") := by
  refine ⟨?_, ?_, by decide, by decide⟩ <;> norm_num [habit_rank]

/-- C2 (amended): the rank classifier is a pure function of the performance
percentage given by the half-open intervals `[100,101) -> Outstanding`,
`[91,100) -> Excellent`, `[71,91) -> Very Good`, `[61,71) -> Good`,
`[51,61) -> Inconsistent`, `[0,51) -> Poor`; every percentage outside
`[0,101)` returns `"Unknown"` without raising; 65 classifies as Good, 95
as Excellent and 0 as Poor. -/
theorem c2_rank_classifier (p : ℚ) :
    (100 ≤ p ∧ p < 101 → habit_rank p = "Outstanding")
    ∧ (91 ≤ p ∧ p < 100 → habit_rank p = "Excellent")
    ∧ (71 ≤ p ∧ p < 91 → habit_rank p = "Very Good")
    ∧ (61 ≤ p ∧ p < 71 → habit_rank p = "Good")
    ∧ (51 ≤ p ∧ p < 61 → habit_rank p = "Inconsistent")
    ∧ (0 ≤ p ∧ p < 51 → habit_rank p = "Poor")
    ∧ (p < 0 ∨ 101 ≤ p → habit_rank p = "Unknown")
    ∧ habit_rank 65 = "Good" ∧ habit_rank 95 = "Excellent"
    ∧ habit_rank 0 = "Poor" := by
  refine ⟨?_, ?_, ?_, ?_, ?_, ?_, ?_, ?_, ?_, ?_⟩
  · intro h; unfold habit_rank
    rw [if_pos h]
  · intro h; unfold habit_rank
    rw [if_neg (by rintro ⟨a, b⟩; linarith [h.1, h.2]), if_pos h]
  · intro h; unfold habit_rank
    rw [if_neg (by rintro ⟨a, b⟩; linarith [h.1, h.2]),
      if_neg (by rintro ⟨a, b⟩; linarith [h.1, h.2]), if_pos h]
  · intro h; unfold habit_rank
    rw [if_neg (by rintro ⟨a, b⟩; linarith [h.1, h.2]),
      if_neg (by rintro ⟨a, b⟩; linarith [h.1, h.2]),
      if_neg (by rintro ⟨a, b⟩; linarith [h.1, h.2]), if_pos h]
  · intro h; unfold habit_rank
    rw [if_neg (by rintro ⟨a, b⟩; linarith [h.1, h.2]),
      if_neg (by rintro ⟨a, b⟩; linarith [h.1, h.2]),
      if_neg (by rintro ⟨a, b⟩; linarith [h.1, h.2]),
      if_neg (by rintro ⟨a, b⟩; linarith [h.1, h.2]), if_pos h]
  · intro h; unfold habit_rank
    rw [if_neg (by rintro ⟨a, b⟩; linarith [h.1, h.2]),
      if_neg (by rintro ⟨a, b⟩; linarith [h.1, h.2]),
      if_neg (by rintro ⟨a, b⟩; linarith [h.1, h.2]),
      if_neg (by rintro ⟨a, b⟩; linarith [h.1, h.2]),
      if_neg (by rintro ⟨a, b⟩; linarith [h.1, h.2]), if_pos h]
  · intro h; unfold habit_rank
    rw [if_neg (by rintro ⟨a, b⟩; rcases h with h | h <;> linarith),
      if_neg (by rintro ⟨a, b⟩; rcases h with h | h <;> linarith),
      if_neg (by rintro ⟨a, b⟩; rcases h with h | h <;> linarith),
      if_neg (by rintro ⟨a, b⟩; rcases h with h | h <;> linarith),
      if_neg (by rintro ⟨a, b⟩; rcases h with h | h <;> linarith),
      if_neg (by rintro ⟨a, b⟩; rcases h with h | h <;> linarith)]
  · norm_num [habit_rank]
  · norm_num [habit_rank]
  · norm_num [habit_rank]

/-- C2 witness: the amended statement at the out-of-range percentage 105. -/
theorem c2_witness : habit_rank 105 = "Unknown" :=
  (c2_rank_classifier 105).2.2.2.2.2.2.1 (Or.inr (by norm_num))

/-- Helper: once the recurrence resolves to an increment, the
`get_longest_streak` scan is the `stepL` fold. -/
theorem longestGo_ok (rec : String) (inc : ℤ) (hrec : incOf rec = some inc) :
    ∀ (l : List (Option ℤ)) (a b : ℕ) (p : Option ℤ),
      longestGo rec a b p l = .ok (longestOf inc (a, b, p) l) := by
  intro l
  induction l with
  | nil => intro a b p; rfl
  | cons x rest ih =>
      intro a b p
      match x with
      | none => simpa [longestGo, longestOf, stepL] using ih a b p
      | some d =>
          match p with
          | none =>
              simpa [longestGo, hrec, longestOf, stepL] using ih a (b + 1) (some d)
          | some q =>
              by_cases hq : d = q + inc
              · simpa [longestGo, hrec, hq, longestOf, stepL]
                  using ih a (b + 1) (some d)
              · simpa [longestGo, hrec, hq, longestOf, stepL]
                  using ih (max a b) 1 (some d)

/-- Helper: a `some` entry always records itself as `previous_date` and
leaves a positive running streak. -/
theorem stepL_some (inc : ℤ) (s : ℕ × ℕ × Option ℤ) (d : ℤ) :
    (stepL inc s (some d)).2.2 = some d ∧ 1 ≤ (stepL inc s (some d)).2.1 := by
  rcases s with ⟨a, b, p⟩
  match p with
  | none => exact ⟨rfl, by simp [stepL]⟩
  | some q =>
      by_cases hq : d = q + inc
      · exact ⟨by simp [stepL, hq], by simp [stepL, hq]⟩
      · exact ⟨by simp [stepL, hq], by simp [stepL, hq]⟩

/-- Helper (key induction): if the descending scan starting at `cur` counts
`k >= 1` matches, then folding the ascending list (the reverse of the
descending one) through `stepL` from any initial state ends with
`previous_date = cur` and a running streak of at least `k`. -/
theorem current_le_final_streak (inc : ℤ) :
    ∀ (m : List (Option ℤ)) (cur : ℤ) (s : ℕ × ℕ × Option ℤ),
      1 ≤ currentGo cur inc m →
      currentGo cur inc m ≤ (m.reverse.foldl (stepL inc) s).2.1
      ∧ (m.reverse.foldl (stepL inc) s).2.2 = some cur := by
  intro m
  induction m with
  | nil => intro cur s h; simp [currentGo] at h
  | cons x m2 ih =>
      intro cur s h
      match x with
      | none =>
          have hcur : currentGo cur inc (none :: m2) = currentGo cur inc m2 := rfl
          rw [hcur] at h ⊢
          have := ih cur s h
          simpa [List.foldl_append, stepL] using this
      | some d =>
          by_cases hd : d = cur
          · subst hd
            have hcur : currentGo d inc (some d :: m2)
                = currentGo (d - inc) inc m2 + 1 := by simp [currentGo]
            rw [hcur] at h ⊢
            have hrev : (some d :: m2).reverse = m2.reverse ++ [some d] := by
              simp
            rw [hrev, List.foldl_append]
            simp only [List.foldl_cons, List.foldl_nil]
            set t2 := m2.reverse.foldl (stepL inc) s with ht2
            rcases Nat.eq_zero_or_pos (currentGo (d - inc) inc m2) with h0 | hpos
            · rw [h0]
              simpa using (stepL_some inc t2 d).symm
            · obtain ⟨hstreak, hprev⟩ := ih (d - inc) s hpos
              rw [← ht2] at hstreak hprev
              have harith : d = (d - inc) + inc := by ring
              constructor
              · have : (stepL inc t2 (some d)).2.1 = t2.2.1 + 1 := by
                  rcases t2 with ⟨a2, b2, p2⟩
                  simp only at hprev
                  rw [hprev]
                  simp [stepL, ← harith]
                omega
              · exact (stepL_some inc t2 d).1
          · simp [currentGo, hd] at h
  
/-- C6: for a Daily or Weekly habit and any stored check-off history
(duplicates and unparseable rows included), the longest streak computed
from the ascending row order is at least the current streak computed on
the same day from the descending row order. -/
theorem c6_longest_ge_current (rec : String) (today : ℤ)
    (l : List (Option ℤ)) (hrec : rec = "Daily" ∨ rec = "Weekly") :
    ∃ L C : ℕ, get_longest_streak rec l = .ok L
      ∧ get_current_streak rec today l.reverse = .ok C ∧ C ≤ L := by
  have key : ∀ inc : ℤ, incOf rec = some inc →
      ∃ L C : ℕ, get_longest_streak rec l = .ok L
        ∧ get_current_streak rec today l.reverse = .ok C ∧ C ≤ L := by
    intro inc hinc
    refine ⟨longestOf inc (0, 0, none) l, currentGo today inc l.reverse,
      longestGo_ok rec inc hinc l 0 0 none, by simp [get_current_streak, hinc], ?_⟩
    rcases Nat.eq_zero_or_pos (currentGo today inc l.reverse) with h0 | hpos
    · simp [h0]
    · have := (current_le_final_streak inc l.reverse today (0, 0, none) hpos).1
      rw [List.reverse_reverse] at this
      calc currentGo today inc l.reverse ≤ (l.foldl (stepL inc) (0, 0, none)).2.1 :=
            this
        _ ≤ longestOf inc (0, 0, none) l := le_max_right _ _
  rcases hrec with h | h <;> subst h
  · exact key 1 rfl
  · exact key 7 rfl

/-- C6 witness: a Daily habit whose ascending history is
`[9, 10, garbage, 10]` evaluated on day 10. -/
theorem c6_witness :
    ∃ L C : ℕ, get_longest_streak "Daily" [some 9, some 10, none, some 10] = .ok L
      ∧ get_current_streak "Daily" 10 [some 9, some 10, none, some 10].reverse = .ok C
      ∧ C ≤ L :=
  c6_longest_ge_current "Daily" 10 [some 9, some 10, none, some 10] (Or.inl rfl)

/-- Helper: per Daily period, the checked-off and not-checked-off lists
partition the habits whose creation date is on or before the period. -/
theorem daily_partition (hs : List HabitRow) (p : ℤ) :
    (checked_off_daily hs p).length + (not_checked_off_daily hs p).length
      = (hs.filter fun h => h.creation ≤ p).length := by
  induction hs with
  | nil => rfl
  | cons x xs ih =>
      unfold checked_off_daily not_checked_off_daily at *
      by_cases h1 : x.creation ≤ p <;>
        by_cases h2 : is_habit_checked_off_given_day p x.checkoffs = true <;>
          simp [List.filter_cons, h1, h2] at ih ⊢ <;> omega

/-- Helper: per Weekly period, the checked-off and not-checked-off lists
partition the habits whose creation week is on or before the period. -/
theorem weekly_partition (hs : List HabitRow) (p : ℤ) :
    (checked_off_weekly hs p).length + (not_checked_off_weekly hs p).length
      = (hs.filter fun h => mondayOf h.creation ≤ p).length := by
  induction hs with
  | nil => rfl
  | cons x xs ih =>
      unfold checked_off_weekly not_checked_off_weekly at *
      by_cases h1 : mondayOf x.creation ≤ p <;>
        by_cases h2 : is_habit_checked_off_weekly p x.checkoffs = true <;>
          simp [List.filter_cons, h1, h2] at ih ⊢ <;> omega

/-- C7: the recent-activity window is exactly 14 consecutive calendar days
ending today (Daily) or 8 consecutive ISO weeks ending with the week
containing today (Weekly, weeks given by their Mondays); for every period,
the checked-off and not-checked-off counts sum to the number of active
habits of the selected recurrence whose creation period is on or before the
period, and a habit created after a period appears in neither list for it. -/
theorem c7_recent_activity_window (today : ℤ) (habits : List HabitRow) :
    (tracked_period_daily today
        = (List.range 14).map (fun i => today - 13 + (i : ℤ)))
    ∧ (tracked_period_weekly today
        = (List.range 8).map (fun i => mondayOf today - 49 + 7 * (i : ℤ)))
    ∧ (∀ p ∈ tracked_period_daily today,
        (checked_off_daily (filtered_habits "Daily" habits) p).length
          + (not_checked_off_daily (filtered_habits "Daily" habits) p).length
          = ((filtered_habits "Daily" habits).filter
              (fun h => h.creation ≤ p)).length)
    ∧ (∀ p ∈ tracked_period_weekly today,
        (checked_off_weekly (filtered_habits "Weekly" habits) p).length
          + (not_checked_off_weekly (filtered_habits "Weekly" habits) p).length
          = ((filtered_habits "Weekly" habits).filter
              (fun h => mondayOf h.creation ≤ p)).length)
    ∧ (∀ (p : ℤ) (h : HabitRow) (hs : List HabitRow), p < h.creation →
        h ∉ checked_off_daily hs p ∧ h ∉ not_checked_off_daily hs p)
    ∧ (∀ (p : ℤ) (h : HabitRow) (hs : List HabitRow), p < mondayOf h.creation →
        h ∉ checked_off_weekly hs p ∧ h ∉ not_checked_off_weekly hs p) := by
  refine ⟨?_, ?_, ?_, ?_, ?_, ?_⟩
  · simp [tracked_period_daily, List.range_succ]
    omega
  · simp [tracked_period_weekly, List.range_succ, mondayOf, weekdayOf]
    omega
  · exact fun p _ => daily_partition (filtered_habits "Daily" habits) p
  · exact fun p _ => weekly_partition (filtered_habits "Weekly" habits) p
  · intro p h hs hlt
    constructor <;> intro hmem <;>
      [exact absurd (List.of_mem_filter hmem) (by simp; intro hc; omega);
       exact absurd (List.of_mem_filter hmem) (by simp; intro hc; omega)]
  · intro p h hs hlt
    constructor <;> intro hmem <;>
      [exact absurd (List.of_mem_filter hmem) (by simp; intro hc; omega);
       exact absurd (List.of_mem_filter hmem) (by simp; intro hc; omega)]

/-- C7 witness: one Daily habit created before the window, evaluated at the
first period of the Daily window of day 0. -/
theorem c7_witness :
    (checked_off_daily (filtered_habits "Daily"
        [⟨"Daily", "active", -20, [0]⟩]) (-13)).length
      + (not_checked_off_daily (filtered_habits "Daily"
          [⟨"Daily", "active", -20, [0]⟩]) (-13)).length
      = ((filtered_habits "Daily" [⟨"Daily", "active", -20, [0]⟩]).filter
          (fun h => h.creation ≤ (-13 : ℤ))).length :=
  (c7_recent_activity_window 0 [⟨"Daily", "active", -20, [0]⟩]).2.2.1
    (-13) (by decide)

/-- Helper: `addDays` splits over a sum of day counts. -/
theorem addDays_add (a b : ℕ) : ∀ d : CalDate,
    addDays d (a + b) = addDays (addDays d a) b := by
  induction a with
  | zero => intro d; rw [Nat.zero_add]; rfl
  | succ a ih =>
      intro d
      rw [show a + 1 + b = (a + b) + 1 by omega]
      show addDays (nextDay d) (a + b) = addDays (addDays (nextDay d) a) b
      exact ih (nextDay d)

/-- Helper: every month has between 28 and 31 days. -/
theorem daysInMonth_bounds (y m : ℤ) :
    28 ≤ daysInMonth y m ∧ daysInMonth y m ≤ 31 := by
  unfold daysInMonth; split_ifs <;> norm_num

/-- Helper: adding days that stay inside the current month just moves the
day component. -/
theorem addDays_within : ∀ (n : ℕ) (d : CalDate),
    d.day + (n : ℤ) ≤ daysInMonth d.year d.month →
    addDays d n = ⟨d.year, d.month, d.day + (n : ℤ)⟩ := by
  intro n
  induction n with
  | zero => intro d _; cases d; simp [addDays]
  | succ n ih =>
      intro d h
      have hlt : d.day < daysInMonth d.year d.month := by push_cast at h; omega
      have hnd : nextDay d = ⟨d.year, d.month, d.day + 1⟩ := by
        unfold nextDay; rw [if_pos hlt]
      show addDays (nextDay d) n = _
      rw [hnd, ih ⟨d.year, d.month, d.day + 1⟩ (by push_cast at h ⊢; omega)]
      simp
      ring

/-- Helper (the 32-day trick of the filling loop): from the first day of any
month, `current += timedelta(days=32); current = current.replace(day=1)`
lands exactly on the first day of the following month. -/
theorem stepMonth_day1 (y m : ℤ) (h1 : 1 ≤ m) (h2 : m ≤ 12) :
    stepMonth ⟨y, m, 1⟩ = if m = 12 then ⟨y + 1, 1, 1⟩ else ⟨y, m + 1, 1⟩ := by
  obtain ⟨hd1, hd2⟩ := daysInMonth_bounds y m
  set dim := daysInMonth y m with hdim
  have hsplit : (32 : ℕ) = (dim - 1).toNat + (33 - dim).toNat := by omega
  unfold stepMonth
  rw [hsplit, addDays_add]
  have hstep1 : addDays ⟨y, m, 1⟩ (dim - 1).toNat = ⟨y, m, dim⟩ := by
    rw [addDays_within (dim - 1).toNat ⟨y, m, 1⟩ (by simp <;> omega)]
    simp <;> omega
  rw [hstep1]
  rw [show (33 - dim).toNat = (32 - dim).toNat + 1 by omega]
  show setDay1 (addDays (nextDay ⟨y, m, dim⟩) (32 - dim).toNat) = _
  have hnext : nextDay ⟨y, m, dim⟩
      = if m < 12 then (⟨y, m + 1, 1⟩ : CalDate) else ⟨y + 1, 1, 1⟩ := by
    show (if dim < daysInMonth y m then (⟨y, m, dim + 1⟩ : CalDate)
          else if m < 12 then (⟨y, m + 1, 1⟩ : CalDate) else ⟨y + 1, 1, 1⟩) = _
    rw [if_neg (by rw [← hdim]; omega)]
  rw [hnext]
  by_cases hm : m < 12
  · rw [if_pos hm, if_neg (by omega)]
    obtain ⟨hb1, _⟩ := daysInMonth_bounds y (m + 1)
    rw [addDays_within (32 - dim).toNat ⟨y, m + 1, 1⟩ (by simp <;> omega)]
    rfl
  · rw [if_neg hm, if_pos (by omega)]
    obtain ⟨hb1, _⟩ := daysInMonth_bounds (y + 1) 1
    rw [addDays_within (32 - dim).toNat ⟨y + 1, 1, 1⟩ (by simp <;> omega)]
    rfl

/-- Helper: membership in `monthRangeGo`. -/
theorem mem_monthRangeGo (a : ℤ) : ∀ (n : ℕ) (lo : ℤ),
    a ∈ monthRangeGo n lo ↔ lo ≤ a ∧ a < lo + n := by
  intro n
  induction n with
  | zero => intro lo; simp [monthRangeGo]
  | succ n ih =>
      intro lo
      simp [monthRangeGo, ih (lo + 1)]
      omega

/-- Helper: membership in `monthRange`. -/
theorem mem_monthRange (a lo hi : ℤ) :
    a ∈ monthRange lo hi ↔ lo ≤ a ∧ a ≤ hi := by
  rw [monthRange, mem_monthRangeGo]
  omega

/-- Helper: a nonempty month range peels off its head. -/
theorem monthRange_cons (lo hi : ℤ) (h : lo ≤ hi) :
    monthRange lo hi = lo :: monthRange (lo + 1) hi := by
  unfold monthRange
  rw [show (hi - lo + 1).toNat = (hi - (lo + 1) + 1).toNat + 1 by omega]
  rfl

/-- Helper: month ranges are sorted. -/
theorem monthRangeGo_sorted : ∀ (n : ℕ) (lo : ℤ),
    (monthRangeGo n lo).Sorted (· ≤ ·) := by
  intro n
  induction n with
  | zero => intro lo; simp [monthRangeGo]
  | succ n ih =>
      intro lo
      rw [monthRangeGo, List.sorted_cons]
      refine ⟨fun b hb => ?_, ih (lo + 1)⟩
      rw [mem_monthRangeGo] at hb
      omega

/-- Helper: month ranges have no duplicates. -/
theorem monthRangeGo_nodup : ∀ (n : ℕ) (lo : ℤ),
    (monthRangeGo n lo).Nodup := by
  intro n
  induction n with
  | zero => intro lo; simp [monthRangeGo]
  | succ n ih =>
      intro lo
      rw [monthRangeGo, List.nodup_cons]
      refine ⟨fun hb => ?_, ih (lo + 1)⟩
      rw [mem_monthRangeGo] at hb
      omega

/-- Helper: for a first-of-month date, the Python date order against a
valid date agrees with the month-index order. -/
theorem dateLe_day1_iff (y m : ℤ) (e : CalDate) (he1 : 1 ≤ e.month)
    (he2 : e.month ≤ 12) (he3 : 1 ≤ e.day) (hm1 : 1 ≤ m) (hm2 : m ≤ 12) :
    dateLe ⟨y, m, 1⟩ e ↔ monthIdx ⟨y, m, 1⟩ ≤ monthIdx e := by
  unfold dateLe monthIdx
  simp only
  omega

/-- Helper: with its fuel, the filling loop emits exactly the consecutive
month indices from its starting month through the end month. -/
theorem fillMonths_eq : ∀ (n : ℕ) (c e : CalDate), c.day = 1 → 1 ≤ c.month →
    c.month ≤ 12 → 1 ≤ e.month → e.month ≤ 12 → 1 ≤ e.day →
    n = (monthIdx e - monthIdx c + 1).toNat →
    fillMonths n c e = monthRange (monthIdx c) (monthIdx e) := by
  intro n
  induction n with
  | zero =>
      intro c e _ _ _ _ _ _ hn
      unfold fillMonths monthRange
      rw [show (monthIdx e - monthIdx c + 1).toNat = 0 by omega]
      rfl
  | succ n ih =>
      intro c e hd hm1 hm2 he1 he2 he3 hn
      obtain ⟨y, m, d⟩ := c
      simp only at hd hm1 hm2
      subst hd
      have hidx : monthIdx ⟨y, m, 1⟩ = 12 * y + (m - 1) := rfl
      have hidxe : 1 ≤ e.month ∧ e.month ≤ 12 := ⟨he1, he2⟩
      have hle : monthIdx ⟨y, m, 1⟩ ≤ monthIdx e := by
        unfold monthIdx at hn ⊢; omega
      unfold fillMonths
      rw [if_pos ((dateLe_day1_iff y m e he1 he2 he3 hm1 hm2).2 hle)]
      have hstep := stepMonth_day1 y m hm1 hm2
      by_cases h12 : m = 12
      · subst h12
        rw [hstep, if_pos rfl]
        rw [ih ⟨y + 1, 1, 1⟩ e rfl (by norm_num) (by norm_num) he1 he2 he3
          (by unfold monthIdx at hn ⊢; simp only at hn ⊢; omega)]
        rw [monthRange_cons _ _ hle]
        have : monthIdx (⟨y + 1, 1, 1⟩ : CalDate) = monthIdx ⟨y, 12, 1⟩ + 1 := by
          unfold monthIdx; simp only; ring
        rw [this]
      · rw [hstep, if_neg h12]
        rw [ih ⟨y, m + 1, 1⟩ e rfl (by show (1:ℤ) ≤ m + 1; omega)
          (by show m + 1 ≤ (12:ℤ); omega) he1 he2 he3
          (by unfold monthIdx at hn ⊢; simp only at hn ⊢; omega)]
        rw [monthRange_cons _ _ hle]
        have : monthIdx (⟨y, m + 1, 1⟩ : CalDate) = monthIdx ⟨y, m, 1⟩ + 1 := by
          unfold monthIdx; simp only; ring
        rw [this]

/-- Helper: `dateLe` is reflexive. -/
theorem dateLe_refl (a : CalDate) : dateLe a a := by unfold dateLe; omega

/-- Helper: `dateLe` is transitive. -/
theorem dateLe_trans {a b c : CalDate} (h1 : dateLe a b) (h2 : dateLe b c) :
    dateLe a c := by
  unfold dateLe at *; omega

/-- Helper: `dateLe` is total. -/
theorem dateLe_total (a b : CalDate) : dateLe a b ∨ dateLe b a := by
  unfold dateLe; omega

/-- Helper: the month index is monotone along the date order on valid
months. -/
theorem monthIdx_mono {a b : CalDate} (ha1 : 1 ≤ a.month) (ha2 : a.month ≤ 12)
    (hb1 : 1 ≤ b.month) (hb2 : b.month ≤ 12) (h : dateLe a b) :
    monthIdx a ≤ monthIdx b := by
  unfold dateLe at h; unfold monthIdx; omega

/-- Helper: `min` over a non-empty list of dates is a member and a lower
bound. -/
theorem listMinDate_spec : ∀ (xs : List CalDate) (x : CalDate),
    listMinDate x xs ∈ x :: xs ∧ dateLe (listMinDate x xs) x
    ∧ ∀ d ∈ xs, dateLe (listMinDate x xs) d := by
  intro xs
  induction xs with
  | nil =>
      intro x
      refine ⟨by simp [listMinDate], dateLe_refl x, by simp⟩
  | cons z zs ih =>
      intro x
      have hrw : listMinDate x (z :: zs)
          = listMinDate (if dateLe x z then x else z) zs := rfl
      set w := if dateLe x z then x else z with hw
      obtain ⟨hmem, hwle, hall⟩ := ih w
      have hwx : dateLe w x ∧ dateLe w z := by
        by_cases hxz : dateLe x z
        · simp only [hw, if_pos hxz]
          exact ⟨dateLe_refl x, hxz⟩
        · simp only [hw, if_neg hxz]
          rcases dateLe_total x z with h | h
          · exact absurd h hxz
          · exact ⟨h, dateLe_refl z⟩
      refine ⟨?_, ?_, ?_⟩
      · rw [hrw]
        rcases List.mem_cons.1 hmem with h | h
        · rw [h]
          by_cases hxz : dateLe x z
          · simp only [hw, if_pos hxz]; simp
          · simp only [hw, if_neg hxz]; simp
        · simp [List.mem_cons, h]
      · rw [hrw]
        exact dateLe_trans hwle hwx.1
      · intro d hd
        rw [hrw]
        rcases List.mem_cons.1 hd with h | h
        · rw [h]
          exact dateLe_trans hwle hwx.2
        · exact hall d h

/-- Helper: `max` over a non-empty list of dates is a member and an upper
bound. -/
theorem listMaxDate_spec : ∀ (xs : List CalDate) (x : CalDate),
    listMaxDate x xs ∈ x :: xs ∧ dateLe x (listMaxDate x xs)
    ∧ ∀ d ∈ xs, dateLe d (listMaxDate x xs) := by
  intro xs
  induction xs with
  | nil =>
      intro x
      refine ⟨by simp [listMaxDate], dateLe_refl x, by simp⟩
  | cons z zs ih =>
      intro x
      have hrw : listMaxDate x (z :: zs)
          = listMaxDate (if dateLe x z then z else x) zs := rfl
      set w := if dateLe x z then z else x with hw
      obtain ⟨hmem, hwle, hall⟩ := ih w
      have hwx : dateLe x w ∧ dateLe z w := by
        by_cases hxz : dateLe x z
        · simp only [hw, if_pos hxz]
          exact ⟨hxz, dateLe_refl z⟩
        · simp only [hw, if_neg hxz]
          rcases dateLe_total x z with h | h
          · exact absurd h hxz
          · exact ⟨dateLe_refl x, h⟩
      refine ⟨?_, ?_, ?_⟩
      · rw [hrw]
        rcases List.mem_cons.1 hmem with h | h
        · rw [h]
          by_cases hxz : dateLe x z
          · simp only [hw, if_pos hxz]; simp
          · simp only [hw, if_neg hxz]; simp
        · simp [List.mem_cons, h]
      · rw [hrw]
        exact dateLe_trans hwx.1 hwle
      · intro d hd
        rw [hrw]
        rcases List.mem_cons.1 hd with h | h
        · rw [h]
          exact dateLe_trans hwx.2 hwle
        · exact hall d h

/-- C8 (amended): for every non-empty check-off history of valid dates, the
monthly series holds exactly one entry per calendar month from the earliest
check-off's month through the month of `max(check-offs + [today])` —
ascending, no gap, no duplicate — and each entry carries the number of
check-offs of that month (zero for filled gap months). -/
theorem c8_monthly_series (c : CalDate) (cs : List CalDate) (today : CalDate)
    (hv : ∀ d ∈ c :: cs, ValidDate d) (ht : ValidDate today) :
    (monthlySeries (c :: cs) today).map Prod.fst
      = monthRange (monthIdx (listMinDate c cs))
          (monthIdx (listMaxDate c (cs ++ [today])))
    ∧ ∀ e ∈ monthlySeries (c :: cs) today,
        e.2 = (c :: cs).countP (fun d => monthIdx d = e.1) := by
  set startDate := listMinDate c cs with hstart
  set endDate := listMaxDate c (cs ++ [today]) with hend
  set lo := monthIdx startDate with hlo
  set hi := monthIdx endDate with hhi
  -- validity of everything in sight
  have hv2 : ∀ d ∈ c :: (cs ++ [today]), ValidDate d := by
    intro d hd
    rcases List.mem_cons.1 hd with h | h
    · exact hv d (h ▸ List.mem_cons_self c cs)
    · rcases List.mem_append.1 h with h2 | h2
      · exact hv d (List.mem_cons_of_mem c h2)
      · simp at h2; subst h2; exact ht
  obtain ⟨hsmem, hsc, hsall⟩ := listMinDate_spec cs c
  obtain ⟨hemem, hec, heall⟩ := listMaxDate_spec (cs ++ [today]) c
  have hvs : ValidDate startDate := hv _ hsmem
  have hve : ValidDate endDate := hv2 _ hemem
  -- every check-off's month lies between lo and hi
  have hbound : ∀ d ∈ c :: cs, lo ≤ monthIdx d ∧ monthIdx d ≤ hi := by
    intro d hd
    have hvd : ValidDate d := hv d hd
    have hled : dateLe startDate d := by
      rcases List.mem_cons.1 hd with h | h
      · exact h ▸ hsc
      · exact hsall d h
    have hled2 : dateLe d endDate := by
      rcases List.mem_cons.1 hd with h | h
      · exact h ▸ hec
      · exact heall d (List.mem_append_left _ h)
    exact ⟨monthIdx_mono hvs.1 hvs.2.1 hvd.1 hvd.2.1 hled,
      monthIdx_mono hvd.1 hvd.2.1 hve.1 hve.2.1 hled2⟩
  have hlohi : lo ≤ hi := by
    have h1 := (hbound c (List.mem_cons_self c cs)).1
    have h2 := (hbound c (List.mem_cons_self c cs)).2
    omega
  -- the filled months are exactly the range
  have hfill : fillMonths (monthFuel (setDay1 startDate) endDate)
      (setDay1 startDate) endDate = monthRange lo hi := by
    have h1 : (setDay1 startDate).day = 1 := rfl
    have h2 : (setDay1 startDate).month = startDate.month := rfl
    have hmi : monthIdx (setDay1 startDate) = lo := rfl
    rw [fillMonths_eq (monthFuel (setDay1 startDate) endDate)
      (setDay1 startDate) endDate h1 (by rw [h2]; exact hvs.1)
      (by rw [h2]; exact hvs.2.1) hve.1 hve.2.1 hve.2.2.1 rfl, hmi]
  -- the dedup'd key set has the same members as the range
  set keys := (((c :: cs).map monthIdx)
      ++ fillMonths (monthFuel (setDay1 startDate) endDate)
        (setDay1 startDate) endDate).dedup with hkeys
  have hkeymem : ∀ a, a ∈ keys ↔ a ∈ monthRange lo hi := by
    intro a
    rw [hkeys, List.mem_dedup, List.mem_append, hfill]
    constructor
    · rintro (h | h)
      · rw [List.mem_map] at h
        obtain ⟨d, hd, rfl⟩ := h
        rw [mem_monthRange]
        exact hbound d hd
      · exact h
    · exact fun h => Or.inr h
  -- sorting the key set gives exactly the range
  have hsorted : keys.insertionSort (· ≤ ·) = monthRange lo hi := by
    have hperm1 : List.Perm (keys.insertionSort (· ≤ ·)) keys :=
      List.perm_insertionSort (· ≤ ·) keys
    have hnd1 : (keys.insertionSort (· ≤ ·)).Nodup :=
      hperm1.nodup_iff.2 (List.nodup_dedup _)
    have hnd2 : (monthRange lo hi).Nodup := monthRangeGo_nodup _ _
    have hperm2 : List.Perm (keys.insertionSort (· ≤ ·)) (monthRange lo hi) := by
      rw [List.perm_ext_iff_of_nodup hnd1 hnd2]
      intro a
      rw [hperm1.mem_iff, hkeymem a]
    exact List.eq_of_perm_of_sorted hperm2
      (List.sorted_insertionSort (· ≤ ·) keys) (monthRangeGo_sorted _ _)
  -- the series is the sorted keys paired with their counts
  have hseries : monthlySeries (c :: cs) today
      = (keys.insertionSort (· ≤ ·)).map
          (fun k => (k, (c :: cs).countP (fun d => monthIdx d = k))) := rfl
  constructor
  · rw [hseries, hsorted, List.map_map]
    have : (Prod.fst ∘ fun k => (k, (c :: cs).countP (fun d => monthIdx d = k)))
        = fun k => k := rfl
    rw [this, List.map_id']
  · intro e he
    rw [hseries, List.mem_map] at he
    obtain ⟨k, _, rfl⟩ := he
    rfl

set_option maxRecDepth 4000 in
/-- C8 counterexample: a single check-off dated 2025-11-05 viewed on
2025-10-12 (month index 24309 = 2025-10, 24310 = 2025-11).  The series
consists of the single month 2025-11 of the future-dated check-off; the
current month 2025-10 appears nowhere, although the claim requires the
series to run through the current month inclusive. -/
theorem c8_counterexample :
    monthlySeries [⟨2025, 11, 5⟩] ⟨2025, 10, 12⟩ = [(24310, 1)]
    ∧ monthIdx ⟨2025, 11, 5⟩ = 24310
    ∧ monthIdx ⟨2025, 10, 12⟩ = 24309
    ∧ (24309 : ℤ) ∉ (monthlySeries [⟨2025, 11, 5⟩] ⟨2025, 10, 12⟩).map Prod.fst := by
  refine ⟨by decide, by decide, by decide, by decide⟩

/-- C8 witness: the amended statement for the history `[2024-04-10]` seen
on 2024-05-15. -/
theorem c8_witness :
    (monthlySeries [⟨2024, 4, 10⟩] ⟨2024, 5, 15⟩).map Prod.fst
      = monthRange (monthIdx (listMinDate ⟨2024, 4, 10⟩ []))
          (monthIdx (listMaxDate ⟨2024, 4, 10⟩ ([] ++ [⟨2024, 5, 15⟩])))
    ∧ ∀ e ∈ monthlySeries [⟨2024, 4, 10⟩] ⟨2024, 5, 15⟩,
        e.2 = [(⟨2024, 4, 10⟩ : CalDate)].countP (fun d => monthIdx d = e.1) :=
  c8_monthly_series ⟨2024, 4, 10⟩ [] ⟨2024, 5, 15⟩ (by decide) (by decide)

set_option maxRecDepth 4000 in
/-- C3 counterexample: a Daily habit with one check-off on 2024-04-10 seen
on 2024-05-15.  April 2024 has 30 days and is not the current month, so the
claim's formula gives `1 / 30 * 100`; the code computes `1 / 31 * 100` for
every month (`count / 31 * 100 if recurrence == "Daily"`), and the two
differ. -/
theorem c3_counterexample :
    monthlyPerformances "Daily" [⟨2024, 4, 10⟩] ⟨2024, 5, 15⟩
      = [100 / 31, 0]
    ∧ (monthlySeries [⟨2024, 4, 10⟩] ⟨2024, 5, 15⟩).map Prod.fst
        = [monthIdx ⟨2024, 4, 10⟩, monthIdx ⟨2024, 5, 15⟩]
    ∧ specMonthlyPercentageDaily 1 2024 4 ⟨2024, 5, 15⟩ = 100 / 30
    ∧ (100 / 31 : ℚ) ≠ 100 / 30 := by
  have hs : monthlySeries [⟨2024, 4, 10⟩] ⟨2024, 5, 15⟩
      = [(24291, 1), (24292, 0)] := by decide
  refine ⟨?_, ?_, ?_, by norm_num⟩
  · rw [monthlyPerformances, hs]
    norm_num
  · rw [hs]
    decide
  · norm_num [specMonthlyPercentageDaily, specExpectedPeriodsDaily, daysInMonth,
      isLeap]

/-- C3 (amended): every month's percentage in the monthly performance
series equals `count / 31 * 100` for a Daily habit and `count / 5 * 100`
for a Weekly habit, independent of the month's actual number of days or
weeks. -/
theorem c3_monthly_performance (rec : String) (checkoffs : List CalDate)
    (today : CalDate) (hrec : rec = "Daily" ∨ rec = "Weekly") :
    monthlyPerformances rec checkoffs today
      = (monthlySeries checkoffs today).map
          (fun e => (e.2 : ℚ) / (if rec = "Daily" then 31 else 5) * 100) := by
  rcases hrec with h | h <;> subst h <;> simp [monthlyPerformances]

/-- C3 witness: the amended statement for a Weekly habit with one
check-off. -/
theorem c3_witness :
    monthlyPerformances "Weekly" [⟨2024, 1, 3⟩] ⟨2024, 1, 20⟩
      = (monthlySeries [⟨2024, 1, 3⟩] ⟨2024, 1, 20⟩).map
          (fun e => (e.2 : ℚ) / (if "Weekly" = "Daily" then 31 else 5) * 100) :=
  c3_monthly_performance "Weekly" [⟨2024, 1, 3⟩] ⟨2024, 1, 20⟩ (Or.inr rfl)
